import Mathlib

/-!
Verification of the `parse_to_json` pipeline: a line parser
(`parse_data_to_json.py`), a completion-date filter (`actionable_ritm.py`)
and a grouping/manifest stage (`roller.py`).  Strings are modelled as
`List Char`; each Lean definition is a direct translation of the
corresponding Python function, with Python exceptions modelled as
`Option`/error values.
-/

namespace ParseToJson

abbrev Str := List Char

/-- ASCII whitespace recognised by Python `str.strip()` / `str.split()`:
space, tab, newline, carriage return, vertical tab, form feed. -/
def isWs (c : Char) : Bool :=
  c.toNat = 32 || c.toNat = 9 || c.toNat = 10 || c.toNat = 13 ||
  c.toNat = 11 || c.toNat = 12

/-- ASCII decimal digit, the regex class `\d` on ASCII input. -/
def isDigitCh (c : Char) : Bool :=
  48 ≤ c.toNat && c.toNat ≤ 57

/-- The regex class `\w` on ASCII input: letters, digits, underscore. -/
def isWordCh (c : Char) : Bool :=
  (65 ≤ c.toNat && c.toNat ≤ 90) || (97 ≤ c.toNat && c.toNat ≤ 122) ||
  isDigitCh c || c.toNat = 95

/-- ASCII uppercase letter, Python `str.isupper()` on ASCII input. -/
def isUpperCh (c : Char) : Bool :=
  65 ≤ c.toNat && c.toNat ≤ 90

/-- ASCII uppercasing, Python `str.upper()` on ASCII input. -/
def toUpperCh (c : Char) : Char :=
  if 97 ≤ c.toNat && c.toNat ≤ 122 then Char.ofNat (c.toNat - 32) else c

/-- Python `str.strip()`: drop leading and trailing whitespace. -/
def stripWs (s : Str) : Str :=
  ((s.dropWhile isWs).reverse.dropWhile isWs).reverse

/-- Helper for `splitWs`: `cur` is the current token accumulated in reverse. -/
def splitWsGo : List Char → List Char → List Str
  | [], cur => if cur.isEmpty then [] else [cur.reverse]
  | c :: rest, cur =>
    if isWs c then
      if cur.isEmpty then splitWsGo rest [] else cur.reverse :: splitWsGo rest []
    else splitWsGo rest (c :: cur)

/-- Python `str.split()` with no argument: split on runs of whitespace,
discarding empty tokens. -/
def splitWs (s : Str) : List Str := splitWsGo s []

/-- Python `str.split('/')`: split at every `'/'`, keeping empty pieces. -/
def splitSlash : List Char → List Str
  | [] => [[]]
  | c :: rest =>
    if c = '/' then [] :: splitSlash rest
    else
      match splitSlash rest with
      | p :: ps => (c :: p) :: ps
      | [] => [[c]]

/-- Python `' '.join(tokens)`. -/
def joinSpace : List Str → Str
  | [] => []
  | [t] => t
  | t :: ts => t ++ ' ' :: joinSpace ts

/-- Function `parse_datetime` from `parse_data_to_json.py`: `DD/MM/YYYY HH:MM:SS`
becomes `YYYY/MM/DD HH:MM:SS`.  The 3-way unpacking of `split('/')`
raises `ValueError` unless exactly three pieces result; `none` models
that exception. -/
def parse_datetime (date time : Str) : Option Str :=
  match splitSlash date with
  | [d, m, y] => some (y ++ '/' :: m ++ '/' :: d ++ ' ' :: time)
  | _ => none

/-- Function `parse_date` from `parse_data_to_json.py`: `DD/MM/YYYY` becomes
`YYYY/MM/DD`; `none` models the `ValueError` of the 3-way unpacking. -/
def parse_date (date : Str) : Option Str :=
  match splitSlash date with
  | [d, m, y] => some (y ++ '/' :: m ++ '/' :: d)
  | _ => none

/-- Python `token.startswith('RITM')`. -/
def startsWithRITM : Str → Bool
  | 'R' :: 'I' :: 'T' :: 'M' :: _ => true
  | _ => false

/-- Python `token[0].isupper()`; tokens from `split()` are never empty, so the
empty case is unreachable in `parse_line`. -/
def firstUpper : Str → Bool
  | [] => false
  | c :: _ => isUpperCh c

/-- Python `re.match(r'\d{2}/\d{2}/\d{4}', token)`: an anchored prefix match,
the rest of the token is unconstrained. -/
def isDateShaped : Str → Bool
  | a :: b :: '/' :: c :: d :: '/' :: e :: f :: g :: h :: _ =>
    isDigitCh a && isDigitCh b && isDigitCh c && isDigitCh d &&
    isDigitCh e && isDigitCh f && isDigitCh g && isDigitCh h
  | _ => false

/-- The in-bounds value of the category-loop condition in `parse_line`
(`parse_data_to_json.py` line 73).  By Python operator precedence the
condition parses as
`(idx < len(parts) and not startswith('RITM') and not [0].isupper())
 or (parts[idx] in ['Risk', 'Rolling'])`;
this is its value when `idx < len(parts)` holds. -/
def catAccept (t : Str) : Bool :=
  (!startsWithRITM t && !firstUpper t) ||
  (if t = "Risk".data then true else if t = "Rolling".data then true else false)

/-- The category-collection loop of `parse_line`, on the token suffix
starting at index 1.  Returns the accepted tokens and the remaining
suffix; `none` models the `IndexError` raised when the condition is
evaluated with `idx = len(parts)` (the vocabulary test
`parts[idx] in ['Risk', 'Rolling']` sits outside the bounds guard). -/
def catLoopGo : List Str → List Str → Option (List Str × List Str)
  | [], _ => none
  | t :: ts, acc =>
    if catAccept t then
      if 2 ≤ (acc ++ [t]).length then some (acc ++ [t], ts)
      else catLoopGo ts (acc ++ [t])
    else some (acc, t :: ts)

/-- The name-collection loop of `parse_line`: accept tokens until the
first date-shaped one (which is not consumed); the bounds guard here
short-circuits correctly, so no error is possible. -/
def nameLoopGo : List Str → List Str → List Str × List Str
  | [], acc => (acc, [])
  | t :: ts, acc =>
    if isDateShaped t then (acc, t :: ts)
    else nameLoopGo ts (acc ++ [t])

/-- Pattern `[\w\-_]` of `extract_files`. -/
def isFnameCh (c : Char) : Bool := isWordCh c || c = '-'

/-- Match `\.DAT\b` (case-insensitive) at the head of `l`; returns the
consumed characters and the rest.  The boundary holds when the next
character is not a word character (or at end of string). -/
def matchDAT : List Char → Option (List Char × List Char)
  | '.' :: d :: a :: t :: rest =>
    if toUpperCh d = 'D' && toUpperCh a = 'A' && toUpperCh t = 'T' then
      match rest with
      | [] => some (['.', d, a, t], [])
      | c :: _ => if isWordCh c then none else some (['.', d, a, t], rest)
    else none
  | _ => none

/-- Match `(?:\.[\w]+)*\.DAT\b` at the head of the text, greedily with
backtracking over the star (the character classes are disjoint from the
following literals, so max-munch inside each piece is faithful).  Each
recursive step consumes at least two characters, so fuel exceeding the
text length never runs out. -/
def matchTailGo : Nat → List Char → Option (List Char × List Char)
  | 0, _ => none
  | n + 1, l =>
    match l with
    | '.' :: rest =>
      if (rest.takeWhile isWordCh).isEmpty then matchDAT l
      else
        match matchTailGo n (rest.dropWhile isWordCh) with
        | some (c2, r) => some ('.' :: (rest.takeWhile isWordCh ++ c2), r)
        | none => matchDAT l
    | _ => matchDAT l

/-- Match `(?:\.[\w]+)*\.DAT\b` at the head of `l`. -/
def matchTail (l : List Char) : Option (List Char × List Char) :=
  matchTailGo (l.length + 1) l

/-- Attempt the whole pattern
`[\w\-_]+(?:\([^)]+\))?(?:\.[\w]+)*\.DAT\b` at the head of `l`. -/
def matchFrom (l : List Char) : Option (List Char × List Char) :=
  if (l.takeWhile isFnameCh).isEmpty then none
  else
    match l.dropWhile isFnameCh with
    | '(' :: r =>
      match r.dropWhile (fun c => !(c = ')')) with
      | ')' :: r3 =>
        if (r.takeWhile (fun c => !(c = ')'))).isEmpty then
          match matchTail (l.dropWhile isFnameCh) with
          | some (c2, rr) => some (l.takeWhile isFnameCh ++ c2, rr)
          | none => none
        else
          match matchTail r3 with
          | some (c2, rr) =>
            some (l.takeWhile isFnameCh ++
              '(' :: (r.takeWhile (fun c => !(c = ')')) ++ ')' :: c2), rr)
          | none =>
            match matchTail (l.dropWhile isFnameCh) with
            | some (c2, rr) => some (l.takeWhile isFnameCh ++ c2, rr)
            | none => none
      | _ =>
        match matchTail (l.dropWhile isFnameCh) with
        | some (c2, rr) => some (l.takeWhile isFnameCh ++ c2, rr)
        | none => none
    | rest1 =>
      match matchTail rest1 with
      | some (c2, rr) => some (l.takeWhile isFnameCh ++ c2, rr)
      | none => none

/-- The `re.findall` scan: try the pattern at each position left to right;
on a match, emit it and resume after it.  The fuel argument is at least
the string length plus one, and every step strictly shortens the
remaining text, so it never runs out. -/
def findAllGo : Nat → List Char → List Str
  | 0, _ => []
  | _ + 1, [] => []
  | n + 1, c :: rest =>
    match matchFrom (c :: rest) with
    | some (m, after) => m :: findAllGo n after
    | none => findAllGo n rest

/-- Python `str.upper()` on ASCII input. -/
def upperStr (s : Str) : Str := s.map toUpperCh

/-- The dedup loop of `extract_files`: keep the first occurrence of each
uppercased form, preserving order (`seen` holds the uppercased forms). -/
def dedupUpper : List Str → List Str → List Str
  | _, [] => []
  | seen, f :: fs =>
    if upperStr f ∈ seen then dedupUpper seen fs
    else f :: dedupUpper (upperStr f :: seen) fs

/-- Function `extract_files` from `parse_data_to_json.py`: find all matches of
`[\w\-_]+(?:\([^)]+\))?(?:\.[\w]+)*\.DAT\b` (case-insensitive) and
deduplicate by uppercased form, keeping first-seen casing and order. -/
def extract_files (text : Str) : List Str :=
  dedupUpper [] (findAllGo (text.length + 1) text)

/-- The record produced by `parse_line`; fields as in the returned dict. -/
structure Record where
  number : Str
  cat_item : Str
  requested_for : Str
  opened_at : Str
  sys_updated_on : Str
  u_desired_completion_date : Str
  u_requestdetails : Str
  files : List Str
deriving DecidableEq

/-- Outcome of `parse_line` on one line: `skip` models `return None`
(empty or warned-and-skipped line), `err` models an uncaught exception
escaping `parse_line`, `ok` a parsed record. -/
inductive LineResult where
  | skip : LineResult
  | err : LineResult
  | ok : Record → LineResult
deriving DecidableEq

/-- Function `parse_line` from `parse_data_to_json.py`.  Faithful translation:
strip; empty ⇒ skip; fewer than 8 tokens ⇒ skip; category loop (may
raise, see `catLoopGo`); name loop; `idx + 5 >= len(parts)` ⇒ skip
(equivalently, at most 5 tokens remaining); otherwise the next five
tokens are the date/time block, the rest is the detail tail, and the
date reformatting may raise (`parse_datetime` / `parse_date`). -/
def parse_line (line0 : Str) : LineResult :=
  let line := stripWs line0
  if line.isEmpty then .skip
  else
    let parts := splitWs line
    if parts.length < 8 then .skip
    else
      match catLoopGo (parts.drop 1) [] with
      | none => .err
      | some (catParts, rest1) =>
        match nameLoopGo rest1 [] with
        | (nameParts, rest2) =>
          if rest2.length ≤ 5 then .skip
          else
            match rest2 with
            | od :: ot :: ud :: ut :: cd :: tail =>
              match parse_datetime od ot, parse_datetime ud ut, parse_date cd with
              | some oa, some su, some cdr =>
                .ok ⟨parts.headD [], joinSpace catParts, joinSpace nameParts,
                     oa, su, cdr, joinSpace tail, extract_files (joinSpace tail)⟩
              | _, _, _ => .err
            | _ => .skip

/-- Function `parse_file` from `parse_data_to_json.py`, restricted to the parsing
loop: accumulate the records of non-rejected lines.  The whole loop sits
inside one `try` whose generic `except Exception` handler returns
`None`; so any exception escaping `parse_line` discards every record
(`none`). -/
def parse_file : List Str → Option (List Record)
  | [] => some []
  | l :: ls =>
    match parse_line l with
    | .err => none
    | .skip => parse_file ls
    | .ok r => (parse_file ls).map (r :: ·)

/-- The records of the lines `parse_line` accepts, in order. -/
def collectRecords : List Str → List Record
  | [] => []
  | l :: ls =>
    match parse_line l with
    | .ok r => r :: collectRecords ls
    | _ => collectRecords ls

/-! ### `actionable_ritm.py` -/

/-- Function `load_open_dates`: the allowed-date set built from the lines of the
open-dates file — each line stripped, empty lines skipped.  The Python
`set` is modelled as a list consumed only through membership. -/
def load_open_dates (lines : List Str) : List Str :=
  (lines.map stripWs).filter (fun d => !d.isEmpty)

/-- Function `filter_valid_records`: keep the records whose
`u_desired_completion_date` is a member of `open_dates`, in input
order. -/
def filter_valid_records : List Record → List Str → List Record
  | [], _ => []
  | r :: rs, open_dates =>
    if r.u_desired_completion_date ∈ open_dates then
      r :: filter_valid_records rs open_dates
    else filter_valid_records rs open_dates

/-! ### `roller.py` -/

/-- The character `'0'`–`'9'` for a digit value. -/
def digitChar (n : Nat) : Char := Char.ofNat (48 + n)

/-- Two-digit zero-padded decimal rendering (strftime `%m` / `%d`). -/
def pad2 (n : Nat) : Str := [digitChar (n / 10 % 10), digitChar (n % 10)]

/-- Four-digit zero-padded decimal rendering (strftime `%Y` as
documented for `datetime`). -/
def pad4 (n : Nat) : Str :=
  [digitChar (n / 1000 % 10), digitChar (n / 100 % 10),
   digitChar (n / 10 % 10), digitChar (n % 10)]

/-- Numeric value of a digit character. -/
def charVal (c : Char) : Nat := c.toNat - 48

/-- Value of a digit string, most significant first. -/
def digitsVal (l : Str) : Nat := l.foldl (fun acc c => acc * 10 + charVal c) 0

/-- Greedy scan of at most `max` leading digits, as the `strptime`
field regexes do (the following literal `/` is not a digit, so
max-munch is faithful). -/
def takeDigits : Nat → List Char → List Char × List Char
  | 0, l => ([], l)
  | _ + 1, [] => ([], [])
  | n + 1, c :: rest =>
    if isDigitCh c then
      (c :: (takeDigits n rest).1, (takeDigits n rest).2)
    else ([], c :: rest)

/-- Gregorian leap-year rule used by `datetime`. -/
def isLeap (y : Nat) : Bool := y % 4 = 0 && (¬ y % 100 = 0 || y % 400 = 0)

/-- Days in a month, as validated by the `datetime` constructor. -/
def daysInMonth (y m : Nat) : Nat :=
  if m = 2 then (if isLeap y then 29 else 28)
  else if m = 4 ∨ m = 6 ∨ m = 9 ∨ m = 11 then 30
  else 31

/-- Python `datetime(year, month, day)` range validation followed by
`strftime("%Y%m%d")`: `none` models the `ValueError`. -/
def mkCob (y m d : Nat) : Option Str :=
  if 1 ≤ y ∧ y ≤ 9999 ∧ 1 ≤ m ∧ m ≤ 12 ∧ 1 ≤ d ∧ d ≤ daysInMonth y m then
    some (pad4 y ++ pad2 m ++ pad2 d)
  else none

/-- Consume a literal `'/'`. -/
def expectSlash : Str → Option Str
  | '/' :: r => some r
  | _ => none

/-- Python `datetime.strptime(s, "%Y/%m/%d")` on an already-stripped string:
exactly four year digits (CPython compiles `%Y` to `\d\d\d\d`), `/`,
one or two month digits, `/`, one or two day digits, nothing left over;
then the calendar validation of `mkCob`. -/
def cobOfStripped (s : Str) : Option Str :=
  let t4 := takeDigits 4 s
  if t4.1.length = 4 then
    match expectSlash t4.2 with
    | none => none
    | some r2 =>
      let tm := takeDigits 2 r2
      if tm.1.isEmpty then none
      else
        match expectSlash tm.2 with
        | none => none
        | some r4 =>
          let td := takeDigits 2 r4
          if td.1.isEmpty then none
          else if td.2.isEmpty then
            mkCob (digitsVal t4.1) (digitsVal tm.1) (digitsVal td.1)
          else none
  else none

/-- Function `parse_cob_date` from `roller.py`:
`datetime.strptime(date_str.strip(), "%Y/%m/%d").strftime("%Y%m%d")`;
`none` models the `ValueError` escaping the function. -/
def parse_cob_date (date_str : Str) : Option Str :=
  cobOfStripped (stripWs date_str)

/-- One value of the grouping dictionary of `group_records_by_date`
(after the final comprehension drops `seen_files`, whose membership
always coincides with membership in `files`). -/
structure GroupEntry where
  ritms : List Str
  files : List Str
deriving DecidableEq

/-- The inner file loop of `group_records_by_date`: append each file
not already present, preserving first-seen order. -/
def addFiles : List Str → List Str → List Str
  | fs, [] => fs
  | fs, f :: rest =>
    if f ∈ fs then addFiles fs rest else addFiles (fs ++ [f]) rest

/-- Fold one record into the grouping map, modelled as an association
list in key-insertion order (Python dicts preserve insertion order). -/
def updateGroups : List (Str × GroupEntry) → Str → Record → List (Str × GroupEntry)
  | [], key, r => [(key, ⟨[r.number], addFiles [] r.files⟩)]
  | (k, e) :: gs, key, r =>
    if k = key then (k, ⟨e.ritms ++ [r.number], addFiles e.files r.files⟩) :: gs
    else (k, e) :: updateGroups gs key r

/-- The record loop of `group_records_by_date`; a `ValueError` from
`parse_cob_date` escapes the whole function (`none`). -/
def groupGo : List (Str × GroupEntry) → List Record → Option (List (Str × GroupEntry))
  | acc, [] => some acc
  | acc, r :: rs =>
    match parse_cob_date r.u_desired_completion_date with
    | none => none
    | some key => groupGo (updateGroups acc key r) rs

/-- Function `group_records_by_date` from `roller.py`. -/
def group_records_by_date (records : List Record) : Option (List (Str × GroupEntry)) :=
  groupGo [] records

/-! ### Definitions taken from the specification's wording -/

/-- The acceptance condition of the spec's category heuristic (§4.1
step 4, quoted by claim C5): the token does not start with `RITM`, and
its first character is not uppercase or the token is a vocabulary
word. -/
def specAccept (t : Str) : Bool :=
  !startsWithRITM t &&
  (!firstUpper t ||
   (if t = "Risk".data then true else if t = "Rolling".data then true else false))

/-! ### Helper lemmas -/

theorem isDigitCh_digitChar {k : Nat} (h : k < 10) :
    isDigitCh (digitChar k) = true := by
  interval_cases k <;> decide

theorem charVal_digitChar {k : Nat} (h : k < 10) :
    charVal (digitChar k) = k := by
  interval_cases k <;> decide

theorem digitChar_ne_slash {k : Nat} (h : k < 10) :
    ¬ digitChar k = '/' := by
  interval_cases k <;> decide

theorem isWs_digitChar {k : Nat} (h : k < 10) :
    isWs (digitChar k) = false := by
  interval_cases k <;> decide

theorem pad2_digits (n : Nat) : ∀ c ∈ pad2 n, isDigitCh c = true := by
  intro c hc
  simp only [pad2, List.mem_cons, List.not_mem_nil, or_false] at hc
  rcases hc with h | h <;> subst h <;> exact isDigitCh_digitChar (by omega)

theorem pad4_digits (n : Nat) : ∀ c ∈ pad4 n, isDigitCh c = true := by
  intro c hc
  simp only [pad4, List.mem_cons, List.not_mem_nil, or_false] at hc
  rcases hc with h | h | h | h <;> subst h <;> exact isDigitCh_digitChar (by omega)

theorem pad2_ne_slash (n : Nat) : ∀ c ∈ pad2 n, ¬ c = '/' := by
  intro c hc
  simp only [pad2, List.mem_cons, List.not_mem_nil, or_false] at hc
  rcases hc with h | h <;> subst h <;> exact digitChar_ne_slash (by omega)

theorem pad4_ne_slash (n : Nat) : ∀ c ∈ pad4 n, ¬ c = '/' := by
  intro c hc
  simp only [pad4, List.mem_cons, List.not_mem_nil, or_false] at hc
  rcases hc with h | h | h | h <;> subst h <;> exact digitChar_ne_slash (by omega)

theorem pad2_not_ws (n : Nat) : ∀ c ∈ pad2 n, isWs c = false := by
  intro c hc
  simp only [pad2, List.mem_cons, List.not_mem_nil, or_false] at hc
  rcases hc with h | h <;> subst h <;> exact isWs_digitChar (by omega)

theorem pad4_not_ws (n : Nat) : ∀ c ∈ pad4 n, isWs c = false := by
  intro c hc
  simp only [pad4, List.mem_cons, List.not_mem_nil, or_false] at hc
  rcases hc with h | h | h | h <;> subst h <;> exact isWs_digitChar (by omega)

theorem takeDigits_exact (ds : List Char) :
    ∀ r : List Char, (∀ c ∈ ds, isDigitCh c = true) →
      takeDigits ds.length (ds ++ r) = (ds, r) := by
  induction ds with
  | nil => intro r _; rfl
  | cons c cs ih =>
    intro r h
    simp only [List.length_cons, List.cons_append, takeDigits,
      h c (List.mem_cons_self c cs), if_true, List.append_eq,
      ih r (fun x hx => h x (List.mem_cons_of_mem c hx))]

theorem dropWhile_eq_self (p : Char → Bool) (l : List Char)
    (h : ∀ c ∈ l, p c = false) : l.dropWhile p = l := by
  cases l with
  | nil => rfl
  | cons c cs =>
    simp [List.dropWhile_cons, h c (List.mem_cons_self c cs)]

theorem stripWs_eq_self (l : Str) (h : ∀ c ∈ l, isWs c = false) :
    stripWs l = l := by
  unfold stripWs
  rw [dropWhile_eq_self _ _ h,
      dropWhile_eq_self _ _ (fun c hc => h c (List.mem_reverse.1 hc)),
      List.reverse_reverse]

theorem splitSlash_no_slash (a : Str) (h : ∀ c ∈ a, ¬ c = '/') :
    splitSlash a = [a] := by
  induction a with
  | nil => rfl
  | cons c cs ih =>
    simp only [splitSlash, if_neg (h c (List.mem_cons_self c cs)),
      ih (fun x hx => h x (List.mem_cons_of_mem c hx))]

theorem splitSlash_append (a b : Str) (h : ∀ c ∈ a, ¬ c = '/') :
    splitSlash (a ++ '/' :: b) = a :: splitSlash b := by
  induction a with
  | nil => simp [splitSlash]
  | cons c cs ih =>
    simp only [List.cons_append, splitSlash, List.append_eq,
      if_neg (h c (List.mem_cons_self c cs)),
      ih (fun x hx => h x (List.mem_cons_of_mem c hx))]

theorem digitsVal_pad2 (n : Nat) (h : n < 100) : digitsVal (pad2 n) = n := by
  simp only [digitsVal, pad2, List.foldl,
    charVal_digitChar (show n / 10 % 10 < 10 by omega),
    charVal_digitChar (show n % 10 < 10 by omega)]
  omega

theorem digitsVal_pad4 (n : Nat) (h : n < 10000) : digitsVal (pad4 n) = n := by
  simp only [digitsVal, pad4, List.foldl,
    charVal_digitChar (show n / 1000 % 10 < 10 by omega),
    charVal_digitChar (show n / 100 % 10 < 10 by omega),
    charVal_digitChar (show n / 10 % 10 < 10 by omega),
    charVal_digitChar (show n % 10 < 10 by omega)]
  omega

theorem daysInMonth_le (y m : Nat) : daysInMonth y m ≤ 31 := by
  unfold daysInMonth
  split
  · split <;> omega
  · split <;> omega

theorem mkCob_pos {y m d : Nat} (hy1 : 1 ≤ y) (hy2 : y ≤ 9999)
    (hm1 : 1 ≤ m) (hm2 : m ≤ 12) (hd1 : 1 ≤ d) (hd2 : d ≤ daysInMonth y m) :
    mkCob y m d = some (pad4 y ++ pad2 m ++ pad2 d) := by
  unfold mkCob
  rw [if_pos ⟨hy1, hy2, hm1, hm2, hd1, hd2⟩]

theorem takeDigits_pad4 (y : Nat) (r : List Char) :
    takeDigits 4 (pad4 y ++ r) = (pad4 y, r) := by
  have hl : (pad4 y).length = 4 := by simp [pad4]
  rw [← hl]
  exact takeDigits_exact (pad4 y) r (pad4_digits y)

theorem takeDigits_pad2 (m : Nat) (r : List Char) :
    takeDigits 2 (pad2 m ++ r) = (pad2 m, r) := by
  have hl : (pad2 m).length = 2 := by simp [pad2]
  rw [← hl]
  exact takeDigits_exact (pad2 m) r (pad2_digits m)

theorem cobOfStripped_padded (y m d : Nat) :
    cobOfStripped (pad4 y ++ '/' :: (pad2 m ++ '/' :: pad2 d)) =
      mkCob (digitsVal (pad4 y)) (digitsVal (pad2 m)) (digitsVal (pad2 d)) := by
  have htd : takeDigits 2 (pad2 d) = (pad2 d, []) := by
    have := takeDigits_pad2 d []
    rwa [List.append_nil] at this
  have hlen : (pad4 y).length = 4 := by simp [pad4]
  have hme : (pad2 m).isEmpty = false := by simp [pad2]
  have hde : (pad2 d).isEmpty = false := by simp [pad2]
  simp [cobOfStripped, takeDigits_pad4, takeDigits_pad2, htd,
    expectSlash, hlen, hme, hde]

theorem parse_cob_date_padded (y m d : Nat) :
    parse_cob_date (pad4 y ++ '/' :: (pad2 m ++ '/' :: pad2 d)) =
      mkCob (digitsVal (pad4 y)) (digitsVal (pad2 m)) (digitsVal (pad2 d)) := by
  unfold parse_cob_date
  rw [stripWs_eq_self, cobOfStripped_padded]
  intro c hc
  simp only [List.mem_append, List.mem_cons] at hc
  rcases hc with h | h | h
  · exact pad4_not_ws y c h
  · subst h; decide
  · rcases h with h | h
    · exact pad2_not_ws m c h
    · rcases h with h | h
      · subst h; decide
      · exact pad2_not_ws d c h

theorem filter_valid_eq_filter (records : List Record) (dates : List Str) :
    filter_valid_records records dates =
      records.filter (fun r => decide (r.u_desired_completion_date ∈ dates)) := by
  induction records with
  | nil => rfl
  | cons r rs ih =>
    by_cases h : r.u_desired_completion_date ∈ dates <;>
      simp [filter_valid_records, List.filter_cons, h, ih]

theorem catLoopGo_bounded (suffix : List Str) :
    ∀ acc acc' rest, acc.length ≤ 1 →
      catLoopGo suffix acc = some (acc', rest) → acc'.length ≤ 2 := by
  induction suffix with
  | nil => intro acc acc' rest _ h; simp [catLoopGo] at h
  | cons t ts ih =>
    intro acc acc' rest hlen h
    simp only [catLoopGo] at h
    by_cases h1 : catAccept t = true
    · rw [if_pos h1] at h
      by_cases h2 : 2 ≤ (acc ++ [t]).length
      · rw [if_pos h2] at h
        obtain ⟨h3, _⟩ := Prod.mk.injEq .. ▸ Option.some.inj h
        subst h3
        simp only [List.length_append, List.length_cons, List.length_nil]
        omega
      · rw [if_neg h2] at h
        simp only [List.length_append, List.length_cons, List.length_nil] at h2
        exact ih (acc ++ [t]) acc' rest
          (by simp only [List.length_append, List.length_cons, List.length_nil]; omega) h
    · rw [if_neg h1] at h
      obtain ⟨h3, _⟩ := Prod.mk.injEq .. ▸ Option.some.inj h
      subst h3
      omega

/-! ### Concrete inputs used by the claims -/

/-- The sample line of claim C1 / spec §8 scenario 1. -/
def sampleLine : Str :=
  "RITM0012345 Risk Rolling JOHN SMITH 01/03/2024 10:15:00 02/03/2024 11:00:00 05/03/2024 please process ORDERBOOK.DAT and Orderbook.dat again".data

/-- A well-formed line (all five date tokens, a two-token tail). -/
def c2Good : Str :=
  "RITM0001 Risk Rolling JOHN SMITH 01/03/2024 10:15:00 02/03/2024 11:00:00 05/03/2024 details here".data

/-- A line whose completion-date token `05-03-2024` has zero `'/'`
separators, so `parse_date` raises at reformat time. -/
def c2Bad : Str :=
  "RITM0002 Risk Rolling JANE DOE 01/03/2024 10:15:00 02/03/2024 11:00:00 05-03-2024 x".data

/-- A record whose completion date `2024/02/31` is shape-valid but
calendar-invalid. -/
def c3Record : Record :=
  ⟨"RITM0001".data, "Risk Rolling".data, "JOHN SMITH".data,
   "2024/03/01 10:15:00".data, "2024/03/02 11:00:00".data,
   "2024/02/31".data, "process A.DAT".data, ["A.DAT".data]⟩

/-- A 9-token line: number, two category tokens, one name token, then
exactly the five date/time tokens and nothing after them. -/
def c4Line : Str :=
  "RITM0001 risk rolling JOHN 01/03/2024 10:15:00 02/03/2024 11:00:00 05/03/2024".data

/-- The token suffix of `c4Line` after the category loop. -/
def c4AfterCat : List Str :=
  ["JOHN".data, "01/03/2024".data, "10:15:00".data, "02/03/2024".data,
   "11:00:00".data, "05/03/2024".data]

/-- The token suffix of `c4Line` at the date-block position: exactly the
five date/time tokens. -/
def c4DateBlock : List Str :=
  ["01/03/2024".data, "10:15:00".data, "02/03/2024".data,
   "11:00:00".data, "05/03/2024".data]

/-- Two records mapping to COB key `20240305`, used by claim C7. -/
def c7Rec1 : Record :=
  ⟨"RITM0101".data, "Risk Rolling".data, "JOHN SMITH".data,
   "2024/03/01 10:15:00".data, "2024/03/02 11:00:00".data,
   "2024/03/05".data, "A.DAT B.DAT".data, ["A.DAT".data, "B.DAT".data]⟩

/-- Second record of claim C7's scenario. -/
def c7Rec2 : Record :=
  ⟨"RITM0102".data, "Risk Rolling".data, "JANE DOE".data,
   "2024/03/01 10:15:00".data, "2024/03/02 11:00:00".data,
   "2024/03/05".data, "B.DAT C.DAT".data, ["B.DAT".data, "C.DAT".data]⟩

/-- A record with completion date `2024/03/05`, used by witnesses. -/
def c6Rec : Record :=
  ⟨"RITM0201".data, "Risk Rolling".data, "JOHN SMITH".data,
   "2024/03/01 10:15:00".data, "2024/03/02 11:00:00".data,
   "2024/03/05".data, "".data, []⟩

/-! ### Claims -/

/-- Claim C1: parsing the single sample line returns an accepted record
with number `RITM0012345`, cat_item `Risk Rolling`, requested_for
`JOHN SMITH`, opened_at `2024/03/01 10:15:00`, sys_updated_on
`2024/03/02 11:00:00`, u_desired_completion_date `2024/03/05`,
u_requestdetails `please process ORDERBOOK.DAT and Orderbook.dat again`,
and files exactly `["ORDERBOOK.DAT"]` — the second, differently-cased
occurrence deduplicated, first-seen casing retained. -/
theorem claim_C1 :
    parse_line sampleLine = LineResult.ok
      ⟨"RITM0012345".data, "Risk Rolling".data, "JOHN SMITH".data,
       "2024/03/01 10:15:00".data, "2024/03/02 11:00:00".data,
       "2024/03/05".data,
       "please process ORDERBOOK.DAT and Orderbook.dat again".data,
       ["ORDERBOOK.DAT".data]⟩ := by
  decide

/-- Claim C2, counterexample: `c2Good` is a well-formed line (neither
skipped nor erroneous), yet `parse_file` on the two-line batch
`[c2Good, c2Bad]` returns `none` — the single malformed completion-date
token of `c2Bad` (a `'/'`-separator count other than two) raises an
error that the file-level `except Exception` handler converts into
losing the whole batch, so the record of `c2Good` is not returned. -/
theorem claim_C2_counterexample :
    ¬ parse_line c2Good = LineResult.err ∧
    ¬ parse_line c2Good = LineResult.skip ∧
    parse_file [c2Good, c2Bad] = none := by
  decide

/-- Claim C4, code bug: on the 9-token line `c4Line` the category loop
accepts `risk rolling`, the name loop accepts `JOHN`, and exactly the
five date/time tokens remain at the date-block position — yet
`parse_line` rejects the line ("missing date fields") because its guard
is `idx + 5 >= len(parts)` instead of `>`, even though no date field is
missing. -/
theorem claim_C4_eval :
    (splitWs (stripWs c4Line)).length = 9 ∧
    catLoopGo ((splitWs (stripWs c4Line)).drop 1) [] =
      some (["risk".data, "rolling".data], c4AfterCat) ∧
    nameLoopGo c4AfterCat [] = (["JOHN".data], c4DateBlock) ∧
    c4DateBlock.length = 5 ∧
    parse_line c4Line = LineResult.skip := by
  decide

/-- Claim C3, counterexample: for a record whose completion date is the
shape-valid but calendar-invalid `2024/02/31`, the COB-key computation
does not strip separators into the key `20240231`: `parse_cob_date`
validates the calendar via `strptime` and raises (returns `none`), and
grouping the record aborts instead of producing any entry. -/
theorem claim_C3_counterexample :
    parse_cob_date ("2024/02/31".data) = none ∧
    ¬ parse_cob_date ("2024/02/31".data) = some ("20240231".data) ∧
    group_records_by_date [c3Record] = none := by
  decide

/-- Claim C2 as amended: per-line failure holds exactly for the guarded
checks — `parse_file` loses the whole batch (returns `none`) precisely
when some line raises at date reformatting (`parse_line` = `err`,
e.g. a positional date token whose `'/'`-separator count is not two);
when no line raises, the parser returns exactly the records of the
accepted lines, rejected lines being dropped individually. -/
theorem claim_C2 : ∀ lines : List Str,
    (parse_file lines = none ↔ ∃ l ∈ lines, parse_line l = LineResult.err) ∧
    ((∀ l ∈ lines, ¬ parse_line l = LineResult.err) →
      parse_file lines = some (collectRecords lines)) := by
  intro lines
  induction lines with
  | nil => simp [parse_file, collectRecords]
  | cons l ls ih =>
    cases h : parse_line l with
    | err =>
      refine ⟨?_, ?_⟩
      · simp [parse_file, h]
      · intro hall
        exact absurd h (hall l (List.mem_cons_self l ls))
    | skip =>
      refine ⟨?_, ?_⟩
      · rw [show parse_file (l :: ls) = parse_file ls by simp [parse_file, h]]
        rw [ih.1]
        simp [h]
      · intro hall
        rw [show parse_file (l :: ls) = parse_file ls by simp [parse_file, h],
            show collectRecords (l :: ls) = collectRecords ls by
              simp [collectRecords, h]]
        exact ih.2 (fun x hx => hall x (List.mem_cons_of_mem l hx))
    | ok r =>
      refine ⟨?_, ?_⟩
      · rw [show parse_file (l :: ls) = (parse_file ls).map (r :: ·) by
          simp [parse_file, h]]
        rw [Option.map_eq_none']
        rw [ih.1]
        simp [h]
      · intro hall
        rw [show parse_file (l :: ls) = (parse_file ls).map (r :: ·) by
          simp [parse_file, h]]
        rw [ih.2 (fun x hx => hall x (List.mem_cons_of_mem l hx))]
        simp [collectRecords, h]

/-- Witness for claim C2's amended theorem at the singleton batch
`[c2Good]`, whose only line does not raise. -/
theorem claim_C2_witness :
    parse_file [c2Good] = some (collectRecords [c2Good]) :=
  (claim_C2 [c2Good]).2 (by decide)

/-- Claim C3 as amended: for every calendar-valid zero-padded
`YYYY/MM/DD` completion date the grouping stage's COB key is the input
with its `'/'` separators stripped; but the computation validates the
calendar (a date such as `2024/02/31` raises instead of yielding a
malformed key, see the counterexample). -/
theorem claim_C3 : ∀ y m d : Nat,
    1 ≤ y → y ≤ 9999 → 1 ≤ m → m ≤ 12 → 1 ≤ d → d ≤ daysInMonth y m →
    parse_cob_date (pad4 y ++ '/' :: (pad2 m ++ '/' :: pad2 d)) =
      some (pad4 y ++ pad2 m ++ pad2 d) := by
  intro y m d hy1 hy2 hm1 hm2 hd1 hd2
  have hdm := daysInMonth_le y m
  rw [parse_cob_date_padded,
      digitsVal_pad4 y (by omega), digitsVal_pad2 m (by omega),
      digitsVal_pad2 d (by omega),
      mkCob_pos hy1 hy2 hm1 hm2 hd1 hd2]

/-- Witness for claim C3's amended theorem at `2024/03/05`. -/
theorem claim_C3_witness :
    parse_cob_date (pad4 2024 ++ '/' :: (pad2 3 ++ '/' :: pad2 5)) =
      some (pad4 2024 ++ pad2 3 ++ pad2 5) :=
  claim_C3 2024 3 5 (by decide) (by decide) (by decide) (by decide)
    (by decide) (by decide)

/-- Claim C5: a token is accepted into `cat_item` exactly when it does
not start with `RITM` and (its first character is not uppercase or it
equals a vocabulary word in `{Risk, Rolling}`): the code's condition
`(¬RITM ∧ ¬upper) ∨ vocab` is extensionally equal to the spec's
`¬RITM ∧ (¬upper ∨ vocab)` for every possible token (the vocabulary
words do not start with `RITM`); and the loop accepts at most two
tokens. -/
theorem claim_C5 :
    (∀ t : Str, catAccept t = specAccept t) ∧
    (∀ suffix acc rest : List Str,
      catLoopGo suffix [] = some (acc, rest) → acc.length ≤ 2) := by
  refine ⟨?_, ?_⟩
  · intro t
    by_cases h1 : t = "Risk".data
    · subst h1; decide
    · by_cases h2 : t = "Rolling".data
      · subst h2; decide
      · simp only [catAccept, specAccept, if_neg h1, if_neg h2]
        cases startsWithRITM t <;> cases firstUpper t <;> rfl
  · intro suffix acc rest h
    exact catLoopGo_bounded suffix [] acc rest (by simp) h

/-- Witness for claim C5's loop bound on a concrete token suffix. -/
theorem claim_C5_witness :
    (["Risk".data, "Rolling".data] : List Str).length ≤ 2 :=
  claim_C5.2 ["Risk".data, "Rolling".data, "JOHN".data]
    ["Risk".data, "Rolling".data] ["JOHN".data] (by decide)

/-- Claim C6: the filter returns exactly the records whose completion
date is an exact string member of the allowed set, as a stable
sublist-preserving filter; when every member of the allowed set is
non-empty, no retained record has an empty completion date; and the
allowed set loaded from the open-dates file contains only non-empty
entries. -/
theorem claim_C6 : ∀ (records : List Record) (dates : List Str),
    filter_valid_records records dates =
      records.filter (fun r => decide (r.u_desired_completion_date ∈ dates)) ∧
    (filter_valid_records records dates).Sublist records ∧
    ((∀ a ∈ dates, ¬ a = []) →
      ∀ r ∈ filter_valid_records records dates,
        ¬ r.u_desired_completion_date = []) ∧
    (∀ ls : List Str, ∀ d ∈ load_open_dates ls, ¬ d = []) := by
  intro records dates
  refine ⟨filter_valid_eq_filter records dates, ?_, ?_, ?_⟩
  · rw [filter_valid_eq_filter]
    exact List.filter_sublist records
  · intro hne r hr
    rw [filter_valid_eq_filter] at hr
    have hmem := (List.mem_filter.1 hr).2
    exact hne _ (of_decide_eq_true hmem)
  · intro ls d hd
    have := (List.mem_filter.1 hd).2
    simpa [List.isEmpty_iff] using this

/-- Witness for claim C6 at a singleton record and allowed set. -/
theorem claim_C6_witness : ¬ c6Rec.u_desired_completion_date = [] :=
  (claim_C6 [c6Rec] ["2024/03/05".data]).2.2.1 (by decide) c6Rec (by decide)

/-- Claim C7: grouping two records that both map to COB key `20240305`,
with files `[A.DAT, B.DAT]` and `[B.DAT, C.DAT]`, yields a single entry
for that key whose files list is exactly `[A.DAT, B.DAT, C.DAT]`
(exact-string dedup across records, first-seen order) and whose ritms
list holds both numbers in input order. -/
theorem claim_C7 : ∀ r1 r2 : Record,
    r1.u_desired_completion_date = "2024/03/05".data →
    r2.u_desired_completion_date = "2024/03/05".data →
    r1.files = ["A.DAT".data, "B.DAT".data] →
    r2.files = ["B.DAT".data, "C.DAT".data] →
    group_records_by_date [r1, r2] =
      some [("20240305".data,
        ⟨[r1.number, r2.number],
         ["A.DAT".data, "B.DAT".data, "C.DAT".data]⟩)] := by
  intro r1 r2 h1 h2 hf1 hf2
  have hc : parse_cob_date ("2024/03/05".data) = some ("20240305".data) := by
    decide
  have ha : addFiles [] ["A.DAT".data, "B.DAT".data] =
      ["A.DAT".data, "B.DAT".data] := by decide
  have hb : addFiles ["A.DAT".data, "B.DAT".data]
      ["B.DAT".data, "C.DAT".data] =
      ["A.DAT".data, "B.DAT".data, "C.DAT".data] := by decide
  simp [group_records_by_date, groupGo, h1, h2, hc, updateGroups,
    hf1, hf2, ha, hb]

/-- Witness for claim C7 at two concrete records. -/
theorem claim_C7_witness :
    group_records_by_date [c7Rec1, c7Rec2] =
      some [("20240305".data,
        ⟨["RITM0101".data, "RITM0102".data],
         ["A.DAT".data, "B.DAT".data, "C.DAT".data]⟩)] :=
  claim_C7 c7Rec1 c7Rec2 (by decide) (by decide) (by decide) (by decide)

/-- Claim C8, round-trip: for every valid day/month/year triple,
reformatting the `DD/MM/YYYY` token with the parser's `parse_date` and
then stripping separators with the grouping stage's `parse_cob_date`
yields exactly the year, month and day digits of the original token
reordered to `YYYYMMDD`. -/
theorem claim_C8 : ∀ d m y : Nat,
    1 ≤ d → 1 ≤ m → m ≤ 12 → 1 ≤ y → y ≤ 9999 → d ≤ daysInMonth y m →
    (parse_date (pad2 d ++ '/' :: (pad2 m ++ '/' :: pad4 y))).bind
        parse_cob_date =
      some (pad4 y ++ pad2 m ++ pad2 d) := by
  intro d m y hd1 hm1 hm2 hy1 hy2 hd2
  have hsplit : splitSlash (pad2 d ++ '/' :: (pad2 m ++ '/' :: pad4 y)) =
      [pad2 d, pad2 m, pad4 y] := by
    rw [splitSlash_append _ _ (pad2_ne_slash d),
        splitSlash_append _ _ (pad2_ne_slash m),
        splitSlash_no_slash _ (pad4_ne_slash y)]
  rw [show parse_date (pad2 d ++ '/' :: (pad2 m ++ '/' :: pad4 y)) =
      some (pad4 y ++ '/' :: (pad2 m ++ '/' :: pad2 d)) by
    simp [parse_date, hsplit]]
  have hdm := daysInMonth_le y m
  rw [Option.some_bind, parse_cob_date_padded,
      digitsVal_pad4 y (by omega), digitsVal_pad2 m (by omega),
      digitsVal_pad2 d (by omega),
      mkCob_pos hy1 hy2 hm1 hm2 hd1 hd2]

/-- Witness for claim C8 at the triple 5 March 2024. -/
theorem claim_C8_witness :
    (parse_date (pad2 5 ++ '/' :: (pad2 3 ++ '/' :: pad4 2024))).bind
        parse_cob_date =
      some (pad4 2024 ++ pad2 3 ++ pad2 5) :=
  claim_C8 5 3 2024 (by decide) (by decide) (by decide) (by decide)
    (by decide) (by decide)

/-- Claim C9: filtering is idempotent — applying the filter to its own
output with the same allowed set returns that output unchanged. -/
theorem claim_C9 : ∀ (records : List Record) (dates : List Str),
    filter_valid_records (filter_valid_records records dates) dates =
      filter_valid_records records dates := by
  intro records dates
  induction records with
  | nil => rfl
  | cons r rs ih =>
    by_cases h : r.u_desired_completion_date ∈ dates <;>
      simp [filter_valid_records, h, ih]

/-- Claim C10: for every token sequence passing the 8-token minimum,
the category loop terminates normally — the unguarded vocabulary access
`parts[idx]` in its condition is always evaluated in bounds, because the
loop starts at index 1 and accepts at most two tokens, so no IndexError
is possible (`catLoopGo` never reaches its out-of-bounds case). -/
theorem claim_C10 : ∀ parts : List Str,
    8 ≤ parts.length → ¬ catLoopGo (parts.drop 1) [] = none := by
  intro parts h
  have h2 : 2 ≤ (parts.drop 1).length := by
    rw [List.length_drop]
    omega
  cases hd : parts.drop 1 with
  | nil => rw [hd] at h2; simp at h2
  | cons t1 ts =>
    cases ts with
    | nil => rw [hd] at h2; simp at h2
    | cons t2 ts2 =>
      simp only [catLoopGo]
      by_cases h1 : catAccept t1 = true
      · simp only [h1, if_true]
        rw [if_neg (by simp)]
        by_cases hb : catAccept t2 = true <;>
          simp [catLoopGo, hb]
      · simp [h1]

/-- Witness for claim C10 on a concrete 9-token sequence. -/
theorem claim_C10_witness :
    ¬ catLoopGo ((splitWs (stripWs c4Line)).drop 1) [] = none :=
  claim_C10 (splitWs (stripWs c4Line)) (by decide)

end ParseToJson
